import Mathlib

/- Verification development for the elimination-tournament selection engine of
   the astrbot_plugin_pic_search repository.

   The Python modules are shallowly embedded:
   - `vlm.py` / `select_from_collage`: the verdict parser (structured JSON
     strategy with integer-substring fallback), with the provider call
     modelled as a list of per-attempt outcomes.
   - `composer.py` / `create_collage`: the successfully-included candidate
     list is the batch filtered by a download oracle and a decode oracle;
     the collage artifact exists exactly when that list is non-empty.
   - `main.py` / `_process_in_batches`: batching, per-batch judging,
     label-to-candidate mapping, stalemate handling and forced resolution.
     The iteration order of the Python `set` used for deduplication is an
     explicit function parameter constrained by `SetListValid`; the
     `random.choice` call is a function parameter constrained by `RandValid`.
   The engine loop is embedded with an explicit fuel argument; termination of
   the source loop corresponds to the fuel never being exhausted. -/

/- Brace characters, named so they can be used where literals would be
   awkward. -/

def lbrace : Char := Char.ofNat 123

def rbrace : Char := Char.ofNat 125

/- ---------- JSON reading, modelling the `json.loads` call in vlm.py ------- -/

inductive PyJson where
  | jnull : PyJson
  | jbool : Bool → PyJson
  | jint : Int → PyJson
  | jfloat : String → PyJson
  | jstr : String → PyJson
  | jarr : List PyJson → PyJson
  | jobj : List (String × PyJson) → PyJson
deriving Repr

def skipWs (cs : List Char) : List Char :=
  cs.dropWhile fun c => c = ' ' || c = '\t' || c = '\n' || c = '\r'

def hexVal (c : Char) : Option Nat :=
  if c.isDigit then some (c.toNat - 48)
  else if 'a' ≤ c ∧ c ≤ 'f' then some (c.toNat - 87)
  else if 'A' ≤ c ∧ c ≤ 'F' then some (c.toNat - 55)
  else none

def escChar (c : Char) : Option Char :=
  if c = '"' then some '"'
  else if c = '\\' then some '\\'
  else if c = '/' then some '/'
  else if c = 'b' then some (Char.ofNat 8)
  else if c = 'f' then some (Char.ofNat 12)
  else if c = 'n' then some '\n'
  else if c = 'r' then some (Char.ofNat 13)
  else if c = 't' then some '\t'
  else none

/- Reads the body of a JSON string (the opening quote already consumed),
   returning the string and the unread rest.  Fuel-driven so that it is
   structurally recursive; fuel equal to the input length always suffices. -/
def readJString : Nat → List Char → List Char → Option (String × List Char)
  | 0, _, _ => none
  | _ + 1, _, [] => none
  | fuel + 1, acc, c :: rest =>
    if c = '"' then some (String.mk acc.reverse, rest)
    else if c = '\\' then
      match rest with
      | [] => none
      | e :: rest2 =>
        if e = 'u' then
          match rest2 with
          | h1 :: h2 :: h3 :: h4 :: rest3 =>
            match hexVal h1, hexVal h2, hexVal h3, hexVal h4 with
            | some a, some b, some c2, some d =>
              readJString fuel (Char.ofNat (((a * 16 + b) * 16 + c2) * 16 + d) :: acc) rest3
            | _, _, _, _ => none
          | _ => none
        else
          match escChar e with
          | some ec => readJString fuel (ec :: acc) rest2
          | none => none
    else readJString fuel (c :: acc) rest

def readDigits (cs : List Char) : List Char × List Char :=
  (cs.takeWhile Char.isDigit, cs.dropWhile Char.isDigit)

def digitsToNat (ds : List Char) : Nat :=
  ds.foldl (fun a c => a * 10 + (c.toNat - 48)) 0

/- Reads an optional exponent part of a JSON number; returns the unread rest. -/
def readExp (cs : List Char) : Option (List Char) :=
  match cs with
  | [] => some []
  | c :: rest =>
    if c = 'e' ∨ c = 'E' then
      let rest2 := match rest with
        | s :: r2 => if s = '+' ∨ s = '-' then r2 else rest
        | [] => rest
      let p := readDigits rest2
      if p.1 = [] then none else some p.2
    else some cs

/- Reads a JSON number.  An integer literal becomes `jint`; a literal with a
   fractional or exponent part becomes `jfloat` (its value is irrelevant to
   the plugin, only that it is neither an int nor a str). -/
def readNum (cs : List Char) : Option (PyJson × List Char) :=
  let p := match cs with
    | c :: rest => if c = '-' then (true, rest) else (false, cs)
    | [] => (false, ([] : List Char))
  let neg := p.1
  let q := readDigits p.2
  if q.1 = [] then none
  else
    let ival : Int := if neg then -(digitsToNat q.1 : Int) else (digitsToNat q.1 : Int)
    match q.2 with
    | [] => some (PyJson.jint ival, [])
    | c :: rest =>
      if c = '.' then
        let fr := readDigits rest
        if fr.1 = [] then none
        else
          match readExp fr.2 with
          | some rest4 => some (PyJson.jfloat (String.mk (q.1 ++ '.' :: fr.1)), rest4)
          | none => none
      else if c = 'e' ∨ c = 'E' then
        match readExp q.2 with
        | some rest4 => some (PyJson.jfloat (String.mk q.1), rest4)
        | none => none
      else some (PyJson.jint ival, q.2)

def readLit (cs : List Char) : Option (PyJson × List Char) :=
  match cs with
  | 't' :: 'r' :: 'u' :: 'e' :: rest => some (PyJson.jbool true, rest)
  | 'f' :: 'a' :: 'l' :: 's' :: 'e' :: rest => some (PyJson.jbool false, rest)
  | 'n' :: 'u' :: 'l' :: 'l' :: rest => some (PyJson.jnull, rest)
  | _ => none

/- Parsing mode: a whole value, the items of an array (after the opening
   bracket, known non-empty), or the members of an object (after the opening
   brace, known non-empty). -/
inductive PMode where
  | val : PMode
  | items : PMode
  | members : PMode

def parseJ : Nat → PMode → List Char → Option (PyJson × List Char)
  | 0, _, _ => none
  | fuel + 1, PMode.val, cs =>
    match skipWs cs with
    | [] => none
    | c :: rest =>
      if c = lbrace then
        match skipWs rest with
        | [] => none
        | d :: rest2 =>
          if d = rbrace then some (PyJson.jobj [], rest2)
          else parseJ fuel PMode.members (skipWs rest)
      else if c = '[' then
        match skipWs rest with
        | [] => none
        | d :: rest2 =>
          if d = ']' then some (PyJson.jarr [], rest2)
          else parseJ fuel PMode.items (skipWs rest)
      else if c = '"' then
        match readJString rest.length [] rest with
        | some (s, rest2) => some (PyJson.jstr s, rest2)
        | none => none
      else if c = '-' ∨ c.isDigit then readNum (c :: rest)
      else readLit (c :: rest)
  | fuel + 1, PMode.items, cs =>
    match parseJ fuel PMode.val cs with
    | some (v, rest) =>
      (match skipWs rest with
      | [] => none
      | c :: rest2 =>
        if c = ',' then
          match parseJ fuel PMode.items rest2 with
          | some (PyJson.jarr vs, rest3) => some (PyJson.jarr (v :: vs), rest3)
          | _ => none
        else if c = ']' then some (PyJson.jarr [v], rest2)
        else none)
    | none => none
  | fuel + 1, PMode.members, cs =>
    match skipWs cs with
    | [] => none
    | c :: rest =>
      if c = '"' then
        match readJString rest.length [] rest with
        | some (k, rest2) =>
          (match skipWs rest2 with
          | [] => none
          | d :: rest3 =>
            if d = ':' then
              match parseJ fuel PMode.val rest3 with
              | some (v, rest4) =>
                (match skipWs rest4 with
                | [] => none
                | e :: rest5 =>
                  if e = ',' then
                    match parseJ fuel PMode.members rest5 with
                    | some (PyJson.jobj kvs, rest6) => some (PyJson.jobj ((k, v) :: kvs), rest6)
                    | _ => none
                  else if e = rbrace then some (PyJson.jobj [(k, v)], rest5)
                  else none)
              | none => none
            else none)
        | none => none
      else none

/- Models `json.loads` on the extracted substring: parse one value and demand
   that nothing but whitespace remains; `none` models a JSONDecodeError. -/
def jsonLoads (cs : List Char) : Option PyJson :=
  match parseJ (cs.length + 1) PMode.val cs with
  | some (v, rest) => if skipWs rest = [] then some v else none
  | none => none

/- Models `data.get(key)` for a parsed JSON document.  Python keeps the last
   of duplicate keys, hence the reversed search; on a non-dict the attribute
   error is absorbed by the caller, modelled by `none`. -/
def objGet (v : PyJson) (key : String) : Option PyJson :=
  match v with
  | PyJson.jobj kvs => (kvs.reverse.find? fun kv => kv.1 = key).map fun kv => kv.2
  | _ => none

/- ---------- select_from_collage (vlm.py) --------------------------------- -/

/- Models `str(n).isdigit()` for an ASCII string: non-empty and all digits. -/
def strIsDigits (s : String) : Bool :=
  !s.toList.isEmpty && s.toList.all Char.isDigit

def pyIntOfDigits (s : String) : Int :=
  (digitsToNat s.toList : Int)

/- Models `[int(n) for n in selected if isinstance(n, (int, str)) and
   str(n).isdigit()]`.  For an int n, `str(n).isdigit()` holds exactly when
   0 ≤ n; bools, floats and nested containers are dropped. -/
def filterIndices (xs : List PyJson) : List Int :=
  xs.filterMap fun v =>
    match v with
    | PyJson.jint n => if 0 ≤ n then some n else none
    | PyJson.jstr s => if strIsDigits s then some (pyIntOfDigits s) else none
    | _ => none

/- Maximal runs of digits, modelling `re.findall` with the digit-run pattern.
   Fuel-driven; fuel equal to the input length always suffices. -/
def digitRunsF : Nat → List Char → List (List Char)
  | 0, _ => []
  | _ + 1, [] => []
  | fuel + 1, c :: rest =>
    if c.isDigit then
      ((c :: rest).takeWhile Char.isDigit) :: digitRunsF fuel (rest.dropWhile Char.isDigit)
    else digitRunsF fuel rest

def digitRuns (cs : List Char) : List (List Char) :=
  digitRunsF cs.length cs

def findallDigits (cs : List Char) : List Int :=
  (digitRuns cs).map fun ds => (digitsToNat ds : Int)

/- Models the greedy search for a brace-delimited region: the match, when it
   exists, runs from the first opening brace to the last closing brace. -/
def extractBrace (cs : List Char) : Option (List Char) :=
  match cs.findIdx? (fun c => c = lbrace), (cs.reverse.findIdx? fun c => c = rbrace) with
  | some i, some k =>
    let j := cs.length - 1 - k
    if i < j then some ((cs.drop i).take (j - i + 1)) else none
  | _, _ => none

/- The structured strategy of the verdict parser: extract the brace region,
   parse it as JSON, read the selected-indices field, demand a list.  Any
   failure yields `none`, which the caller turns into the regex fallback. -/
def structuredSelected (cs : List Char) : Option (List Int) :=
  match extractBrace cs with
  | some sub =>
    (match jsonLoads sub with
    | some data =>
      (match objGet data ("selected_indices") with
      | some (PyJson.jarr xs) => some (filterIndices xs)
      | _ => none)
    | none => none)
  | none => none

/- The response handling of select_from_collage for one raw response string:
   structured strategy first, integer-substring fallback otherwise. -/
def parseSelected (result : String) : List Int :=
  match structuredSelected result.toList with
  | some r => r
  | none => findallDigits result.toList

/- One provider call either raises (transport error, after which the loop
   retries) or yields a raw text response. -/
inductive VlmAttempt where
  | err : VlmAttempt
  | resp : String → VlmAttempt

/- The retry loop of select_from_collage: up to `retries` attempts; a raised
   attempt moves to the next one; a received response is parsed and returned
   at once (an empty parse is a valid outcome and is not retried); exhausted
   retries yield the empty selection. -/
def selectLoop : Nat → List VlmAttempt → List Int
  | 0, _ => []
  | _ + 1, [] => []
  | fuel + 1, a :: rest =>
    match a with
    | VlmAttempt.err => selectLoop fuel rest
    | VlmAttempt.resp s => parseSelected s

def selectFromCollage (attempts : List VlmAttempt) : List Int :=
  selectLoop 3 attempts

/- ---------- composer.py: the successfully-included candidate list --------- -/

/- create_collage downloads each url of the batch and keeps, in order, those
   whose download succeeded; _create_collage_sync then keeps, in order, those
   whose bytes decode to an image.  `dl` and `dec` are the corresponding
   oracles on the url (the bytes are a function of the url within one round).
   The collage artifact is produced exactly when the result is non-empty, so
   the engine's emptiness check below stands for both the missing-artifact
   and the empty-list condition of the source. -/
def composeSuccessful (dl dec : String → Bool) (batch : List String) : List String :=
  (batch.filter dl).filter dec

/- ---------- main.py: _process_in_batches --------------------------------- -/

/- The label-to-candidate mapping of the inner loop: for each selected index,
   `actual_index = index - 1`; the candidate is kept only when
   `0 <= actual_index < len(successful_urls)`. -/
def batchWinners (selected : List Int) (successfulUrls : List String) : List String :=
  selected.filterMap fun index =>
    let actual := index - 1
    if 0 ≤ actual ∧ actual < (successfulUrls.length : Int) then
      successfulUrls[actual.toNat]?
    else none

/- The batch slicing loop `for i in range(0, len(pool), B): pool[i:i+B]`.
   Fuel-driven so that it is structurally recursive; fuel equal to the pool
   length always suffices when 0 < B.  (For B = 0 the Python range call would
   raise; the embedding returns no batches, a case outside every claim.) -/
def batchLoop : Nat → Nat → List String → Nat → List (List String)
  | 0, _, _, _ => []
  | fuel + 1, B, l, i =>
    if i < l.length ∧ 0 < B then ((l.drop i).take B) :: batchLoop fuel B l (i + B)
    else []

def makeBatches (B : Nat) (l : List String) : List (List String) :=
  batchLoop l.length B l 0

/- One iteration of the inner batch loop: the batch is skipped when empty;
   one render call (create_collage) is made otherwise; the batch is skipped
   when no candidate was successfully included; one judge call
   (select_from_collage) is made otherwise; out-of-range labels are dropped
   by batchWinners; the surviving candidates are contributed to the round.
   The result is (contributed survivors, render calls, judge calls). -/
def processBatch (dl dec : String → Bool) (vlmB : List String → List VlmAttempt)
    (batch : List String) : List String × Nat × Nat :=
  if batch = [] then ([], 0, 0)
  else
    let successful := composeSuccessful dl dec batch
    if successful = [] then ([], 1, 0)
    else
      let sel := selectFromCollage (vlmB successful)
      if sel = [] then ([], 1, 1)
      else (batchWinners sel successful, 1, 1)

/- The batch loop of one round, accumulating survivors in batch order (the
   source extends next_round_winners batch by batch).  `vlmR k` is the
   provider behaviour for the k-th batch of this round. -/
def roundGo (dl dec : String → Bool) (vlmR : Nat → List String → List VlmAttempt) :
    List (List String) → Nat → List String × Nat × Nat
  | [], _ => ([], 0, 0)
  | b :: bs, k =>
    let hd := processBatch dl dec (vlmR k) b
    let tl := roundGo dl dec vlmR bs (k + 1)
    (hd.1 ++ tl.1, hd.2.1 + tl.2.1, hd.2.2 + tl.2.2)

def roundSurvivors (B : Nat) (dl dec : String → Bool)
    (vlmR : Nat → List String → List VlmAttempt) (pool : List String) :
    List String × Nat × Nat :=
  roundGo dl dec vlmR (makeBatches B pool) 0

/- The two prompt escalation directives, verbatim from the source. -/

def finalRoundDirective : String :=
  "重要指示：你正处于决赛圈。请对以下图片进行严格比较，并只选出其中最符合描述的一半（向上取整）作为优胜者。如果所有图片都同样优秀，也请务必只选择一半。"

def forceChoiceDirective : String :=
  "重要指示: 你必须进行筛选。请从以上图片中，严格挑选出一张或几张最符合描述的图片。如果所有图片都符合，请只选择最优秀的一张。"

/- prompt_enhancements of one round: the final-round directive is appended
   when the pool holds 16 or fewer candidates (a hard-coded threshold in the
   source), then the force-a-choice directive when the stalemate counter is
   positive. -/
def promptEnhancements (poolLen stale : Nat) : List String :=
  (if poolLen ≤ 16 then [finalRoundDirective] else []) ++
    (if 0 < stale then [forceChoiceDirective] else [])

/- effective_prompt: the base description, or the description followed by a
   blank line and the space-joined enhancements when any exist. -/
def effectivePrompt (desc : String) (poolLen stale : Nat) : String :=
  let enh := promptEnhancements poolLen stale
  if enh = [] then desc else desc ++ "\n\n" ++ String.intercalate (" ") enh

/- list(set(xs)): any function producing a duplicate-free list with exactly
   the elements of its input is an admissible model of the CPython set
   iteration order (which depends on the per-process string hash seed). -/
def SetListValid (f : List String → List String) : Prop :=
  ∀ l : List String, (f l).Nodup ∧ ∀ x : String, x ∈ f l ↔ x ∈ l

/- random.choice: any function picking an element of its non-empty input. -/
def RandValid (rand : List String → String) : Prop :=
  ∀ l : List String, l ≠ [] → rand l ∈ l

/- The while-loop of _process_in_batches.  State: pool (current_winners),
   round number r, stalemate counter, accumulated render and judge call
   counts.  The fuel argument makes the loop structurally recursive; `none`
   means the fuel ran out (the loop would still be running).  Otherwise the
   returned value is (result, render calls, judge calls) with the result the
   Optional[str] of the source: a winner, or None when a round produced no
   survivors or the terminal pool is empty. -/
def runLoop (B : Nat) (desc : String) (dl dec : Nat → String → Bool)
    (vlm : Nat → String → Nat → List String → List VlmAttempt)
    (setList : List String → List String) (rand : List String → String) :
    Nat → List String → Nat → Nat → Nat → Nat → Option (Option String × Nat × Nat)
  | 0, _, _, _, _, _ => none
  | fuel + 1, pool, r, stale, rc, jc =>
    if pool.length ≤ 1 then some (pool.head?, rc, jc)
    else
      let res := roundSurvivors B (dl r) (dec r)
        (vlm r (effectivePrompt desc pool.length stale)) pool
      if res.1 = [] then some (none, rc + res.2.1, jc + res.2.2)
      else
        let next := setList res.1
        let stale2 := if next.length = pool.length ∧ 1 < next.length then stale + 1 else 0
        if 2 ≤ stale2 then some (some (rand next), rc + res.2.1, jc + res.2.2)
        else runLoop B desc dl dec vlm setList rand fuel next (r + 1) stale2
          (rc + res.2.1) (jc + res.2.2)

/- run_tournament: the loop started on the initial pool with round 1 and a
   zero stalemate counter.  The fuel 2·|pool| + 2 is shown sufficient below
   (each round either strictly shrinks the pool or raises the stalemate
   counter, which forces termination after two held rounds). -/
def processInBatches (B : Nat) (desc : String) (dl dec : Nat → String → Bool)
    (vlm : Nat → String → Nat → List String → List VlmAttempt)
    (setList : List String → List String) (rand : List String → String)
    (pool : List String) : Option (Option String × Nat × Nat) :=
  runLoop B desc dl dec vlm setList rand (2 * pool.length + 2) pool 1 0 0 0

/- ---------- concrete oracles used by the closed theorems below ----------- -/

def allTrue : Nat → String → Bool := fun _ _ => true

def allFalse : Nat → String → Bool := fun _ _ => false

def dlOnlyC : Nat → String → Bool := fun _ u => u == "c"

/- A judge that approves everything: its response lists the labels 1..k of
   every presented candidate. -/
def vlmApproveAll : Nat → String → Nat → List String → List VlmAttempt :=
  fun _ _ _ urls =>
    [VlmAttempt.resp (String.intercalate (" ") ((List.range urls.length).map fun i => toString (i + 1)))]

/- A judge that always answers with the single label 1. -/
def vlmPickFirst : Nat → String → Nat → List String → List VlmAttempt :=
  fun _ _ _ _ => [VlmAttempt.resp ("1")]

/- A provider whose every call raises. -/
def vlmSilent : Nat → String → Nat → List String → List VlmAttempt :=
  fun _ _ _ _ => []

/- Two admissible models of the set iteration order. -/

def pySetList (l : List String) : List String := l.dedup

def pySetListRev (l : List String) : List String := l.dedup.reverse

def headRand (l : List String) : String := l.headD ("")

/- ---------- helper lemmas ------------------------------------------------- -/

theorem batchLoop_flatten (B : Nat) (l : List String) (hB : 0 < B) :
    ∀ fuel i, l.length - i ≤ fuel → (batchLoop fuel B l i).flatten = l.drop i := by
  intro fuel
  induction fuel with
  | zero =>
    intro i hi
    have h0 : l.length ≤ i := by omega
    simp [batchLoop, List.drop_eq_nil_of_le h0]
  | succ fuel ih =>
    intro i hi
    rw [batchLoop]
    by_cases h : i < l.length ∧ 0 < B
    · rw [if_pos h, List.flatten_cons, ih (i + B) (by omega), ← List.drop_drop]
      exact List.take_append_drop B (l.drop i)
    · rw [if_neg h]
      have h0 : l.length ≤ i := by omega
      simp [List.drop_eq_nil_of_le h0]

theorem batchLoop_count (B : Nat) (l : List String) (hB : 0 < B) :
    ∀ fuel i, l.length - i ≤ fuel →
      (batchLoop fuel B l i).length = (l.length - i + B - 1) / B := by
  intro fuel
  induction fuel with
  | zero =>
    intro i hi
    have h0 : l.length - i = 0 := by omega
    rw [h0]
    simp only [batchLoop, List.length_nil]
    exact (Nat.div_eq_of_lt (show 0 + B - 1 < B by omega)).symm
  | succ fuel ih =>
    intro i hi
    rw [batchLoop]
    by_cases h : i < l.length ∧ 0 < B
    · rw [if_pos h, List.length_cons, ih (i + B) (by omega)]
      rcases le_or_lt (l.length - i) B with hle | hlt
      · have e1 : l.length - (i + B) + B - 1 = 0 + B - 1 := by omega
        have e2 : l.length - i + B - 1 = (l.length - i - 1) + B := by omega
        rw [e1, e2, Nat.add_div_right _ hB,
          Nat.div_eq_of_lt (show 0 + B - 1 < B by omega),
          Nat.div_eq_of_lt (show l.length - i - 1 < B by omega)]
      · have e1 : l.length - (i + B) + B - 1 = (l.length - i - 1 - B) + B := by omega
        have e2 : l.length - i + B - 1 = (l.length - i - 1) + B := by omega
        rw [e1, e2, Nat.add_div_right _ hB, Nat.add_div_right _ hB]
        have e3 : l.length - i - 1 = (l.length - i - 1 - B) + B := by omega
        rw [e3, Nat.add_div_right _ hB, Nat.add_sub_cancel]
    · rw [if_neg h]
      have h0 : l.length - i = 0 := by omega
      rw [h0]
      simp only [List.length_nil]
      exact (Nat.div_eq_of_lt (show 0 + B - 1 < B by omega)).symm

theorem batchLoop_size_le (B : Nat) (l : List String) :
    ∀ fuel i c, c ∈ batchLoop fuel B l i → c.length ≤ B := by
  intro fuel
  induction fuel with
  | zero => intro i c hc; simp [batchLoop] at hc
  | succ fuel ih =>
    intro i c hc
    rw [batchLoop] at hc
    by_cases h : i < l.length ∧ 0 < B
    · rw [if_pos h] at hc
      rcases List.mem_cons.mp hc with rfl | hc2
      · simp [List.length_take]
      · exact ih _ _ hc2
    · rw [if_neg h] at hc
      simp at hc

theorem batchLoop_dropLast_size (B : Nat) (l : List String) :
    ∀ fuel i c, c ∈ (batchLoop fuel B l i).dropLast → c.length = B := by
  intro fuel
  induction fuel with
  | zero => intro i c hc; simp [batchLoop] at hc
  | succ fuel ih =>
    intro i c hc
    rw [batchLoop] at hc
    by_cases h : i < l.length ∧ 0 < B
    · rw [if_pos h] at hc
      rcases htl : batchLoop fuel B l (i + B) with _ | ⟨b2, bs⟩
      · rw [htl] at hc
        simp at hc
      · rw [htl, List.dropLast_cons₂] at hc
        rcases List.mem_cons.mp hc with rfl | hc2
        · have hlt : i + B < l.length := by
            by_contra hge
            push_neg at hge
            cases fuel with
            | zero => simp [batchLoop] at htl
            | succ g =>
              rw [batchLoop, if_neg (by omega)] at htl
              cases htl
          simp [List.length_take]
          omega
        · rw [← htl] at hc2
          exact ih _ _ hc2
    · rw [if_neg h] at hc
      simp at hc

theorem batchLoop_mem_subset (B : Nat) (l : List String) :
    ∀ fuel i b, b ∈ batchLoop fuel B l i → ∀ x ∈ b, x ∈ l := by
  intro fuel
  induction fuel with
  | zero => intro i b hb; simp [batchLoop] at hb
  | succ fuel ih =>
    intro i b hb x hx
    rw [batchLoop] at hb
    by_cases h : i < l.length ∧ 0 < B
    · rw [if_pos h] at hb
      rcases List.mem_cons.mp hb with rfl | hb2
      · exact List.drop_subset i l (List.take_subset B (l.drop i) hx)
      · exact ih _ _ hb2 x hx
    · rw [if_neg h] at hb
      simp at hb

theorem batchWinners_subset (selected : List Int) (urls : List String) :
    ∀ x ∈ batchWinners selected urls, x ∈ urls := by
  intro x hx
  rw [batchWinners] at hx
  rcases List.mem_filterMap.mp hx with ⟨i, _, hi⟩
  by_cases hc : 0 ≤ i - 1 ∧ i - 1 < (urls.length : Int)
  · rw [if_pos hc] at hi
    have hlt : (i - 1).toNat < urls.length := by omega
    rw [List.getElem?_eq_getElem hlt] at hi
    cases hi
    exact List.getElem_mem hlt
  · rw [if_neg hc] at hi
    cases hi

theorem composeSuccessful_subset (dl dec : String → Bool) (batch : List String) :
    ∀ x ∈ composeSuccessful dl dec batch, x ∈ batch := by
  intro x hx
  exact (List.mem_filter.mp (List.mem_filter.mp hx).1).1

theorem processBatch_subset (dl dec : String → Bool)
    (vlmB : List String → List VlmAttempt) (batch : List String) :
    ∀ x ∈ (processBatch dl dec vlmB batch).1, x ∈ batch := by
  intro x hx
  rw [processBatch] at hx
  by_cases h0 : batch = []
  · rw [if_pos h0] at hx
    simp at hx
  · rw [if_neg h0] at hx
    simp only at hx
    by_cases h1 : composeSuccessful dl dec batch = []
    · rw [if_pos h1] at hx
      simp at hx
    · rw [if_neg h1] at hx
      by_cases h2 : selectFromCollage (vlmB (composeSuccessful dl dec batch)) = []
      · rw [if_pos h2] at hx
        simp at hx
      · rw [if_neg h2] at hx
        exact composeSuccessful_subset dl dec batch x (batchWinners_subset _ _ x hx)

theorem roundGo_subset (dl dec : String → Bool)
    (vlmR : Nat → List String → List VlmAttempt) :
    ∀ bs k x, x ∈ (roundGo dl dec vlmR bs k).1 → ∃ b ∈ bs, x ∈ b := by
  intro bs
  induction bs with
  | nil => intro k x hx; simp [roundGo] at hx
  | cons b bs ih =>
    intro k x hx
    rw [roundGo] at hx
    rcases List.mem_append.mp hx with hx1 | hx2
    · exact ⟨b, List.mem_cons_self b bs, processBatch_subset _ _ _ b x hx1⟩
    · rcases ih (k + 1) x hx2 with ⟨b2, hb2, hxb2⟩
      exact ⟨b2, List.mem_cons_of_mem b hb2, hxb2⟩

theorem roundSurvivors_subset (B : Nat) (dl dec : String → Bool)
    (vlmR : Nat → List String → List VlmAttempt) (pool : List String) :
    ∀ x ∈ (roundSurvivors B dl dec vlmR pool).1, x ∈ pool := by
  intro x hx
  rcases roundGo_subset dl dec vlmR (makeBatches B pool) 0 x hx with ⟨b, hb, hxb⟩
  exact batchLoop_mem_subset B pool pool.length 0 b hb x hxb

theorem setList_subset (f : List String → List String) (hf : SetListValid f)
    (l : List String) : ∀ x ∈ f l, x ∈ l := by
  intro x hx
  exact ((hf l).2 x).mp hx

theorem setList_length_le (f : List String → List String) (hf : SetListValid f)
    (l pool : List String) (hsub : ∀ x ∈ l, x ∈ pool) :
    (f l).length ≤ pool.length :=
  (List.subperm_of_subset (hf l).1 fun x hx => hsub x (setList_subset f hf l x hx)).length_le

theorem runLoop_isSome (B : Nat) (desc : String) (dl dec : Nat → String → Bool)
    (vlm : Nat → String → Nat → List String → List VlmAttempt)
    (f : List String → List String) (rand : List String → String)
    (hf : SetListValid f) :
    ∀ fuel pool r stale rc jc, stale ≤ 1 → 2 * pool.length - stale < fuel →
      (runLoop B desc dl dec vlm f rand fuel pool r stale rc jc).isSome = true := by
  intro fuel
  induction fuel with
  | zero => intro pool r stale rc jc h1 h2; omega
  | succ fuel ih =>
    intro pool r stale rc jc h1 h2
    rw [runLoop]
    by_cases hp : pool.length ≤ 1
    · simp [hp]
    · rw [if_neg hp]
      simp only
      by_cases hsv :
          (roundSurvivors B (dl r) (dec r)
            (vlm r (effectivePrompt desc pool.length stale)) pool).1 = []
      · simp [hsv]
      · rw [if_neg hsv]
        have hsub := roundSurvivors_subset B (dl r) (dec r)
          (vlm r (effectivePrompt desc pool.length stale)) pool
        have hlen : (f (roundSurvivors B (dl r) (dec r)
            (vlm r (effectivePrompt desc pool.length stale)) pool).1).length ≤ pool.length :=
          setList_length_le f hf _ pool hsub
        by_cases hst : (f (roundSurvivors B (dl r) (dec r)
            (vlm r (effectivePrompt desc pool.length stale)) pool).1).length = pool.length ∧
          1 < (f (roundSurvivors B (dl r) (dec r)
            (vlm r (effectivePrompt desc pool.length stale)) pool).1).length
        · rw [if_pos hst]
          by_cases h2s : 2 ≤ stale + 1
          · simp [h2s]
          · rw [if_neg h2s]
            exact ih _ (r + 1) (stale + 1) _ _ (by omega) (by omega)
        · rw [if_neg hst]
          have hlt : (f (roundSurvivors B (dl r) (dec r)
              (vlm r (effectivePrompt desc pool.length stale)) pool).1).length < pool.length := by
            rcases lt_or_ge (f (roundSurvivors B (dl r) (dec r)
                (vlm r (effectivePrompt desc pool.length stale)) pool).1).length pool.length with hlt | hge
            · exact hlt
            · exact absurd ⟨le_antisymm hlen hge, by omega⟩ hst
          rw [if_neg (by omega : ¬ 2 ≤ 0)]
          exact ih _ (r + 1) 0 _ _ (by omega) (by omega)

theorem runLoop_winner_mem (B : Nat) (desc : String) (dl dec : Nat → String → Bool)
    (vlm : Nat → String → Nat → List String → List VlmAttempt)
    (f : List String → List String) (rand : List String → String)
    (hf : SetListValid f) (hr : RandValid rand) :
    ∀ fuel pool r stale rc jc res w,
      runLoop B desc dl dec vlm f rand fuel pool r stale rc jc = some res →
      res.1 = some w → w ∈ pool := by
  intro fuel
  induction fuel with
  | zero => intro pool r stale rc jc res w hrun; rw [runLoop] at hrun; cases hrun
  | succ fuel ih =>
    intro pool r stale rc jc res w hrun hw
    rw [runLoop] at hrun
    by_cases hp : pool.length ≤ 1
    · rw [if_pos hp] at hrun
      cases hrun
      exact List.mem_of_mem_head? (Option.mem_def.mpr hw)
    · rw [if_neg hp] at hrun
      simp only at hrun
      by_cases hsv :
          (roundSurvivors B (dl r) (dec r)
            (vlm r (effectivePrompt desc pool.length stale)) pool).1 = []
      · rw [if_pos hsv] at hrun
        cases hrun
        cases hw
      · rw [if_neg hsv] at hrun
        have hsub := roundSurvivors_subset B (dl r) (dec r)
          (vlm r (effectivePrompt desc pool.length stale)) pool
        by_cases hst : (f (roundSurvivors B (dl r) (dec r)
            (vlm r (effectivePrompt desc pool.length stale)) pool).1).length = pool.length ∧
          1 < (f (roundSurvivors B (dl r) (dec r)
            (vlm r (effectivePrompt desc pool.length stale)) pool).1).length
        · rw [if_pos hst] at hrun
          by_cases h2s : 2 ≤ stale + 1
          · rw [if_pos h2s] at hrun
            cases hrun
            cases hw
            have hne : f (roundSurvivors B (dl r) (dec r)
                (vlm r (effectivePrompt desc pool.length stale)) pool).1 ≠ [] := by
              intro hnil
              rw [hnil] at hst
              simp at hst
            exact hsub _ (setList_subset f hf _ _ (hr _ hne))
          · rw [if_neg h2s] at hrun
            have := ih _ (r + 1) (stale + 1) _ _ res w hrun hw
            exact hsub _ (setList_subset f hf _ _ this)
        · rw [if_neg hst] at hrun
          rw [if_neg (by omega : ¬ 2 ≤ 0)] at hrun
          have := ih _ (r + 1) 0 _ _ res w hrun hw
          exact hsub _ (setList_subset f hf _ _ this)

theorem filterIndices_nonneg (xs : List PyJson) : ∀ n ∈ filterIndices xs, 0 ≤ n := by
  intro n hn
  rw [filterIndices] at hn
  rcases List.mem_filterMap.mp hn with ⟨v, _, hv⟩
  cases v with
  | jint m =>
    dsimp only at hv
    by_cases hm : 0 ≤ m
    · rw [if_pos hm] at hv; cases hv; exact hm
    · rw [if_neg hm] at hv; cases hv
  | jstr s =>
    dsimp only at hv
    by_cases hs : strIsDigits s = true
    · rw [if_pos hs] at hv
      cases hv
      exact Int.natCast_nonneg _
    · rw [if_neg hs] at hv
      cases hv
  | jnull => dsimp only at hv; cases hv
  | jbool b => dsimp only at hv; cases hv
  | jfloat s => dsimp only at hv; cases hv
  | jarr ys => dsimp only at hv; cases hv
  | jobj kvs => dsimp only at hv; cases hv

theorem findallDigits_nonneg (cs : List Char) : ∀ n ∈ findallDigits cs, 0 ≤ n := by
  intro n hn
  rcases List.mem_map.mp hn with ⟨ds, _, hds⟩
  cases hds
  exact Int.natCast_nonneg _

theorem structuredSelected_nonneg (cs : List Char) (r : List Int)
    (h : structuredSelected cs = some r) : ∀ n ∈ r, 0 ≤ n := by
  rw [structuredSelected] at h
  rcases hx : extractBrace cs with _ | sub
  · rw [hx] at h; cases h
  · rw [hx] at h
    dsimp only at h
    rcases hj : jsonLoads sub with _ | data
    · rw [hj] at h; cases h
    · rw [hj] at h
      dsimp only at h
      rcases ho : objGet data ("selected_indices") with _ | v
      · rw [ho] at h; cases h
      · rw [ho] at h
        cases v with
        | jarr xs => dsimp only at h; cases h; exact filterIndices_nonneg xs
        | jnull => dsimp only at h; cases h
        | jbool b => dsimp only at h; cases h
        | jint m => dsimp only at h; cases h
        | jfloat s => dsimp only at h; cases h
        | jstr s => dsimp only at h; cases h
        | jobj kvs => dsimp only at h; cases h

theorem parseSelected_nonneg (s : String) : ∀ n ∈ parseSelected s, 0 ≤ n := by
  intro n hn
  rw [parseSelected] at hn
  rcases hs : structuredSelected s.toList with _ | r
  · rw [hs] at hn
    exact findallDigits_nonneg _ n hn
  · rw [hs] at hn
    exact structuredSelected_nonneg _ r hs n hn

theorem selectLoop_nonneg : ∀ fuel attempts n, n ∈ selectLoop fuel attempts → 0 ≤ n := by
  intro fuel
  induction fuel with
  | zero => intro attempts n hn; simp [selectLoop] at hn
  | succ fuel ih =>
    intro attempts n hn
    cases attempts with
    | nil => simp [selectLoop] at hn
    | cons a rest =>
      cases a with
      | err => exact ih rest n hn
      | resp s => exact parseSelected_nonneg s n hn

theorem pySetList_valid : SetListValid pySetList := by
  intro l
  exact ⟨List.nodup_dedup l, fun x => List.mem_dedup⟩

theorem pySetListRev_valid : SetListValid pySetListRev := by
  intro l
  constructor
  · exact List.nodup_reverse.mpr (List.nodup_dedup l)
  · intro x
    rw [pySetListRev, List.mem_reverse]
    exact List.mem_dedup

theorem headRand_valid : RandValid headRand := by
  intro l hl
  cases l with
  | nil => exact absurd rfl hl
  | cons a t => exact List.mem_cons_self a t

/- ---------- claim theorems ----------------------------------------------- -/

/-- C1: the tournament loop terminates for every sequence of renderer and
judge responses (for every admissible set iteration order): the fuel
2·|pool| + 2 built into processInBatches is never exhausted, because each
round either strictly shrinks the pool or increments the stalemate counter,
and a counter of 2 forces random resolution.  In particular a judge that
always returns all labels 1..k (vlmApproveAll) stalls twice and yields a
forced DONE after exactly two rounds, not an infinite loop. -/
theorem c1_termination :
    (∀ (B : Nat) (desc : String) (dl dec : Nat → String → Bool)
      (vlm : Nat → String → Nat → List String → List VlmAttempt)
      (f : List String → List String) (rand : List String → String)
      (pool : List String), SetListValid f →
        (processInBatches B desc dl dec vlm f rand pool).isSome = true)
    ∧ processInBatches 16 ("d") allTrue allTrue vlmApproveAll pySetList headRand
        (["a", "b", "c"]) = some (some ("a"), 2, 2) := by
  refine ⟨?_, by decide⟩
  intro B desc dl dec vlm f rand pool hf
  exact runLoop_isSome B desc dl dec vlm f rand hf (2 * pool.length + 2) pool 1 0 0 0
    (by omega) (by omega)

/-- C1 witness: the termination statement applied at a concrete pool, batch
size and judge, with the set-order hypothesis discharged for pySetList. -/
theorem c1_termination_witness :
    (processInBatches 1 ("d") allTrue allTrue vlmPickFirst pySetList headRand
      (["x", "y"])).isSome = true :=
  c1_termination.1 1 ("d") allTrue allTrue vlmPickFirst pySetList headRand
    (["x", "y"]) pySetList_valid

/-- C2 counterexample: with configured batch_size 4 and a pool of 10
candidates the source appends the final-round directive (its test is the
hard-coded threshold 16), while the claim predicts it appears exactly when
the pool fits in one batch (10 ≤ 4), which is false. -/
theorem c2_counterexample :
    ¬ (finalRoundDirective ∈ promptEnhancements 10 0 ↔ 10 ≤ 4) := by
  decide

/-- C2 amended: the final-round directive is appended exactly when the pool
holds at most 16 candidates (a hard-coded constant equal to the default
batch_size but independent of the configured one), the force-a-choice
directive exactly when the stalemate counter is positive, layered in that
order; with no enhancements the effective prompt is the bare description. -/
theorem c2_effective_prompt : ∀ (poolLen stale : Nat) (desc : String),
    (finalRoundDirective ∈ promptEnhancements poolLen stale ↔ poolLen ≤ 16)
    ∧ (forceChoiceDirective ∈ promptEnhancements poolLen stale ↔ 0 < stale)
    ∧ (poolLen ≤ 16 → 0 < stale →
        promptEnhancements poolLen stale = [finalRoundDirective, forceChoiceDirective])
    ∧ (promptEnhancements poolLen stale = [] → effectivePrompt desc poolLen stale = desc) := by
  intro poolLen stale desc
  have hne : finalRoundDirective ≠ forceChoiceDirective := by decide
  by_cases h1 : poolLen ≤ 16 <;> by_cases h2 : 0 < stale <;>
    simp [promptEnhancements, effectivePrompt, h1, h2, hne, Ne.symm hne]

/-- C2 witness: both directives stack, in order, for a 10-candidate pool
under stalemate. -/
theorem c2_effective_prompt_witness :
    promptEnhancements 10 1 = [finalRoundDirective, forceChoiceDirective] :=
  (c2_effective_prompt 10 1 ("d")).2.2.1 (by decide) (by decide)

/-- C3 counterexample: an all-renders-fail run (the NoSurvivors condition)
and an empty-initial-pool run (the NoWinner condition) return the same
caller-visible value None; the Optional result carries no tag that
distinguishes the two failure reasons. -/
theorem c3_counterexample :
    (processInBatches 16 ("d") allFalse allTrue vlmSilent pySetList headRand
        (["a", "b"])).map (fun t => t.1) = some none
    ∧ (processInBatches 16 ("d") allFalse allTrue vlmSilent pySetList headRand
        ([] : List String)).map (fun t => t.1) = some none :=
  ⟨by decide, by decide⟩

/-- C3 amended: the caller-visible result is exactly a winning candidate
drawn from the pool or the untagged None (which covers both a round with no
survivors and an empty terminal pool, distinguished only in logs); a first
round whose accumulated survivor set is empty aborts the whole tournament
with None; and a batch-local failure (here: every download of batch 1
fails) contributes zero survivors without aborting the round, the winner
coming from the surviving batch. -/
theorem c3_failure_handling :
    (∀ (B : Nat) (desc : String) (dl dec : Nat → String → Bool)
        (vlm : Nat → String → Nat → List String → List VlmAttempt)
        (f : List String → List String) (rand : List String → String)
        (pool : List String) (res : Option String × Nat × Nat),
        SetListValid f → RandValid rand →
        processInBatches B desc dl dec vlm f rand pool = some res →
        res.1 = none ∨ ∃ w, res.1 = some w ∧ w ∈ pool)
    ∧ (∀ (B : Nat) (desc : String) (dl dec : Nat → String → Bool)
        (vlm : Nat → String → Nat → List String → List VlmAttempt)
        (f : List String → List String) (rand : List String → String)
        (pool : List String), 1 < pool.length →
        (roundSurvivors B (dl 1) (dec 1)
          (vlm 1 (effectivePrompt desc pool.length 0)) pool).1 = [] →
        (processInBatches B desc dl dec vlm f rand pool).map (fun t => t.1) = some none)
    ∧ processInBatches 2 ("d") dlOnlyC allTrue vlmPickFirst pySetList headRand
        (["a", "b", "c"]) = some (some ("c"), 2, 1) := by
  refine ⟨?_, ?_, by decide⟩
  · intro B desc dl dec vlm f rand pool res hf hr hrun
    rcases hres : res.1 with _ | w
    · exact Or.inl rfl
    · exact Or.inr ⟨w, rfl,
        runLoop_winner_mem B desc dl dec vlm f rand hf hr _ pool 1 0 0 0 res w hrun hres⟩
  · intro B desc dl dec vlm f rand pool hp hsv
    rw [processInBatches]
    have h2 : 2 * pool.length + 2 = (2 * pool.length + 1) + 1 := rfl
    rw [h2, runLoop, if_neg (by omega : ¬ pool.length ≤ 1)]
    dsimp only
    rw [if_pos hsv]
    rfl

/-- C3 witness: the no-survivors abort applied at a concrete two-candidate
pool whose every render fails, its hypotheses discharged by evaluation. -/
theorem c3_failure_handling_witness :
    (processInBatches 16 ("d") allFalse allTrue vlmSilent pySetList headRand
      (["p", "q"])).map (fun t => t.1) = some none :=
  c3_failure_handling.2.1 16 ("d") allFalse allTrue vlmSilent pySetList headRand
    (["p", "q"]) (by decide) (by decide)

/-- C4: for every pool and positive batch size B the slicing loop produces
ceil(N/B) contiguous batches in pool order whose concatenation is the pool,
each of size at most B and all but possibly the last of size exactly B; an
empty pool yields zero batches. -/
theorem c4_batch_partitioner : ∀ (B : Nat) (l : List String), 0 < B →
    (makeBatches B l).length = (l.length + B - 1) / B
    ∧ (makeBatches B l).flatten = l
    ∧ (∀ c ∈ makeBatches B l, c.length ≤ B)
    ∧ (∀ c ∈ (makeBatches B l).dropLast, c.length = B)
    ∧ (l = [] → makeBatches B l = []) := by
  intro B l hB
  refine ⟨?_, ?_, ?_, ?_, ?_⟩
  · have h := batchLoop_count B l hB l.length 0 (by omega)
    simpa [makeBatches] using h
  · have h := batchLoop_flatten B l hB l.length 0 (by omega)
    simpa [makeBatches] using h
  · exact fun c hc => batchLoop_size_le B l l.length 0 c hc
  · exact fun c hc => batchLoop_dropLast_size B l l.length 0 c hc
  · intro hl
    subst hl
    rfl

/-- C4 witness: the partitioner contract applied at B = 3 on a 4-element
pool. -/
theorem c4_batch_partitioner_witness :
    0 < 3 ∧ (makeBatches 3 ["a", "b", "c", "d"]).flatten = ["a", "b", "c", "d"] :=
  ⟨by decide, (c4_batch_partitioner 3 (["a", "b", "c", "d"]) (by decide)).2.1⟩

/-- C5: the verdict parser maps the structured selected-indices response to
its integer list; maps free text through the integer-substring fallback;
maps a digit-free response to the empty selection without consulting any
further attempt (no retry); and a brace region that fails to parse falls
through to the fallback instead of raising. -/
theorem c5_verdict_parsing :
    selectFromCollage [VlmAttempt.resp ("\x7b\"selected_indices\": [2, 4]\x7d")] = [2, 4]
    ∧ selectFromCollage [VlmAttempt.resp ("I pick 2 and 4")] = [2, 4]
    ∧ (∀ rest : List VlmAttempt,
        selectFromCollage (VlmAttempt.resp ("none match") :: rest) = [])
    ∧ selectFromCollage [VlmAttempt.resp ("\x7bnot json\x7d I pick 2 and 4")] = [2, 4] := by
  refine ⟨by decide, by decide, ?_, by decide⟩
  intro rest
  rfl

/-- C6 counterexample: two admissible iteration orders of the deduplicating
set — identical pools, identical renderer and judge responses per batch —
produce different round pools and even different winners, refuting the
claim that the engine is deterministic with stable pool order. -/
theorem c6_counterexample :
    SetListValid pySetList ∧ SetListValid pySetListRev
    ∧ processInBatches 2 ("d") allTrue allTrue vlmPickFirst pySetList headRand
        (["a", "b", "c"]) = some (some ("a"), 3, 3)
    ∧ processInBatches 2 ("d") allTrue allTrue vlmPickFirst pySetListRev headRand
        (["a", "b", "c"]) = some (some ("c"), 3, 3) :=
  ⟨pySetList_valid, pySetListRev_valid, by decide, by decide⟩

/-- C6 amended: survivor accumulation is by batch identity in pool order,
and within one round the membership of the deduplicated survivor pool is
independent of the set iteration order; the engine is deterministic only
once that order (fixed per Python process by the hash seed) is held fixed,
since across rounds the order feeds back into batching and can change the
round pools and the winner. -/
theorem c6_round_membership :
    ∀ (f g : List String → List String), SetListValid f → SetListValid g →
      ∀ (B : Nat) (dl dec : String → Bool)
        (vlmR : Nat → List String → List VlmAttempt) (pool : List String) (x : String),
        (x ∈ f (roundSurvivors B dl dec vlmR pool).1 ↔
          x ∈ g (roundSurvivors B dl dec vlmR pool).1) := by
  intro f g hf hg B dl dec vlmR pool x
  rw [(hf _).2 x, (hg _).2 x]

/-- C6 witness: the round-membership invariance applied to the two concrete
set orders at a concrete pool. -/
theorem c6_round_membership_witness :
    ("c" ∈ pySetList (roundSurvivors 2 (fun _ => true) (fun _ => true)
        (fun _ _ => [VlmAttempt.resp ("1")]) ["a", "b", "c"]).1 ↔
      "c" ∈ pySetListRev (roundSurvivors 2 (fun _ => true) (fun _ => true)
        (fun _ _ => [VlmAttempt.resp ("1")]) ["a", "b", "c"]).1) :=
  c6_round_membership pySetList pySetListRev pySetList_valid pySetListRev_valid 2
    (fun _ => true) (fun _ => true) (fun _ _ => [VlmAttempt.resp ("1")]) ["a", "b", "c"] ("c")

/-- C7: a judge label is mapped back to a candidate exactly when it lies in
[1, number of successfully included candidates], via 1-based indexing; all
other labels are silently dropped, and the mapping is total (no exception
or out-of-bounds access exists in the embedding). -/
theorem c7_label_mapping : ∀ (selected : List Int) (urls : List String),
    batchWinners selected urls =
      (selected.filter fun i => decide (1 ≤ i) && decide (i ≤ (urls.length : Int))).map
        fun i => urls.getD (i - 1).toNat ("") := by
  intro selected urls
  induction selected with
  | nil => rfl
  | cons i tl ih =>
    rw [batchWinners] at ih
    rw [batchWinners, List.filterMap_cons, List.filter_cons]
    by_cases hc : 1 ≤ i ∧ i ≤ (urls.length : Int)
    · have hlt : (i - 1).toNat < urls.length := by omega
      have hhead : (let actual := i - 1;
          if 0 ≤ actual ∧ actual < (urls.length : Int) then urls[actual.toNat]? else none)
          = some (urls.getD (i - 1).toNat ("")) := by
        dsimp only
        rw [if_pos (by omega : 0 ≤ i - 1 ∧ i - 1 < (urls.length : Int)),
          List.getElem?_eq_getElem hlt, List.getD_eq_getElem urls ("") hlt]
      simp only [hhead]
      rw [if_pos (by simp only [Bool.and_eq_true, decide_eq_true_eq]; exact hc)]
      rw [List.map_cons]
      exact congrArg _ ih
    · have hhead : (let actual := i - 1;
          if 0 ≤ actual ∧ actual < (urls.length : Int) then urls[actual.toNat]? else none)
          = (none : Option String) := by
        dsimp only
        rw [if_neg (by omega : ¬ (0 ≤ i - 1 ∧ i - 1 < (urls.length : Int)))]
      simp only [hhead]
      rw [if_neg (by simp only [Bool.and_eq_true, decide_eq_true_eq]; exact hc)]
      exact ih

/-- C8: a pool of size one returns its candidate immediately, with zero
render calls and zero judge calls, for every renderer, judge, set order and
random choice; re-running is therefore a no-op producing the same
candidate. -/
theorem c8_singleton_pool : ∀ (B : Nat) (desc : String) (dl dec : Nat → String → Bool)
    (vlm : Nat → String → Nat → List String → List VlmAttempt)
    (setList : List String → List String) (rand : List String → String) (c : String),
    processInBatches B desc dl dec vlm setList rand [c] = some (some c, 0, 0) := by
  intro B desc dl dec vlm setList rand c
  rfl

/-- C9: applying the set deduplication to a round's accumulated survivors
yields a duplicate-free list of elements of the round's input pool whose
length never exceeds the input pool's length; consequently every winner the
tournament returns is an element of the initial pool. -/
theorem c9_pool_invariants :
    (∀ (f : List String → List String), SetListValid f →
      ∀ (B : Nat) (dl dec : String → Bool)
        (vlmR : Nat → List String → List VlmAttempt) (pool : List String),
        (f (roundSurvivors B dl dec vlmR pool).1).Nodup
        ∧ (∀ x ∈ f (roundSurvivors B dl dec vlmR pool).1, x ∈ pool)
        ∧ (f (roundSurvivors B dl dec vlmR pool).1).length ≤ pool.length)
    ∧ (∀ (B : Nat) (desc : String) (dl dec : Nat → String → Bool)
        (vlm : Nat → String → Nat → List String → List VlmAttempt)
        (f : List String → List String) (rand : List String → String)
        (pool : List String) (res : Option String × Nat × Nat) (w : String),
        SetListValid f → RandValid rand →
        processInBatches B desc dl dec vlm f rand pool = some res →
        res.1 = some w → w ∈ pool) := by
  constructor
  · intro f hf B dl dec vlmR pool
    refine ⟨(hf _).1, ?_, ?_⟩
    · intro x hx
      exact roundSurvivors_subset B dl dec vlmR pool x (setList_subset f hf _ x hx)
    · exact setList_length_le f hf _ pool (roundSurvivors_subset B dl dec vlmR pool)
  · intro B desc dl dec vlm f rand pool res w hf hr hrun hw
    exact runLoop_winner_mem B desc dl dec vlm f rand hf hr _ pool 1 0 0 0 res w hrun hw

/-- C9 witness: the round invariant applied to a concrete round with the
pySetList order, its set-order hypothesis discharged. -/
theorem c9_pool_invariants_witness :
    (pySetList (roundSurvivors 16 (fun _ => true) (fun _ => true)
      (fun _ _ => [VlmAttempt.resp ("1")]) ["a", "b"]).1).Nodup :=
  (c9_pool_invariants.1 pySetList pySetList_valid 16 (fun _ => true) (fun _ => true)
    (fun _ _ => [VlmAttempt.resp ("1")]) ["a", "b"]).1

/-- C10: every label the verdict parser returns is non-negative — the
structured path keeps only digit-only entries and the fallback extracts
digit runs — and on the raw text of a negative number the returned label is
the digit part, not the negative value. -/
theorem c10_nonneg_labels :
    (∀ (attempts : List VlmAttempt) (n : Int), n ∈ selectFromCollage attempts → 0 ≤ n)
    ∧ selectFromCollage [VlmAttempt.resp ("-3")] = [3] := by
  refine ⟨?_, by decide⟩
  intro attempts n hn
  exact selectLoop_nonneg 3 attempts n hn

/-- C10 witness: non-negativity applied at a concrete response and label. -/
theorem c10_nonneg_labels_witness :
    3 ∈ selectFromCollage [VlmAttempt.resp ("I pick 3")] ∧ (0 : Int) ≤ 3 :=
  ⟨by decide, c10_nonneg_labels.1 [VlmAttempt.resp ("I pick 3")] 3 (by decide)⟩
